import Mathlib

/-!
Shallow embedding of the workout-statistics core of the breaking-point app:
the streak calculators from `src/lib/streakUtils.ts` (duplicated in
`src/supabase/functions/update-stats/index.ts`), the schedule validator from
`src/app/(tabs)/schedule.tsx`, the onboarding day toggle from
`src/app/onboarding.tsx`, and the success-path of the update-stats request
handler.  Dates are modelled as integer calendar-day numbers: the source
normalises every timestamp with `startOfDay` before comparing, and
`differenceInDays` between two midnights is exactly the difference of day
numbers.
-/

/-- One row of `workout_history`: a completion date (calendar-day number) and
the logged exercises (name, completed). Only `date` is read by the streak
functions. -/
structure WorkoutEntry where
  date : Int
  exercises : List (String × Bool)
deriving DecidableEq, Repr

/-- The descending-date comparator `(a, b) => new Date(b.date) - new Date(a.date)`
used by `calculateStreak`'s sort. -/
def dateDesc (a b : WorkoutEntry) : Prop := b.date ≤ a.date

instance : DecidableRel dateDesc := fun a b => inferInstanceAs (Decidable (b.date ≤ a.date))

instance : IsTotal WorkoutEntry dateDesc := ⟨fun a b => le_total b.date a.date⟩

instance : IsTrans WorkoutEntry dateDesc := ⟨fun _ _ _ h₁ h₂ => le_trans h₂ h₁⟩

/-- `[...workoutHistory].sort((a, b) => new Date(b.date).getTime() - new Date(a.date).getTime())`. -/
def sortedByDateDesc (h : List WorkoutEntry) : List WorkoutEntry :=
  h.insertionSort dateDesc

/-- The `for` loop of `calculateStreak` (streakUtils.ts lines 27-44): walk the
descending-sorted history; on the first iteration a today-dated entry sets the
streak to 1 and moves `currentDate` to yesterday; afterwards an entry equal to
`currentDate` increments the streak and decrements `currentDate`; anything else
breaks the loop. -/
def streakLoop (today : Int) : List WorkoutEntry → Int → Nat → Bool → Nat
  | [], _, streak, _ => streak
  | e :: rest, currentDate, streak, isFirst =>
    if isFirst ∧ e.date = today then
      streakLoop today rest (today - 1) 1 false
    else if e.date = currentDate then
      streakLoop today rest (currentDate - 1) (streak + 1) false
    else
      streak

/-- `calculateStreak` from `src/lib/streakUtils.ts` lines 7-47, with "today"
(the `startOfDay(new Date())` ambient value) made an explicit parameter. -/
def calculateStreak (today : Int) (workoutHistory : List WorkoutEntry) : Nat :=
  if workoutHistory.isEmpty then 0
  else
    match sortedByDateDesc workoutHistory with
    | [] => 0
    | first :: rest =>
      if 1 < today - first.date then 0
      else streakLoop today (first :: rest) today 0 true

/-- Accumulator form of building a JS `Set` from a list: keeps the first
occurrence of each element, in encounter order. -/
def jsDedupAux : List Int → List Int → List Int
  | acc, [] => acc
  | acc, d :: rest => jsDedupAux (if d ∈ acc then acc else acc ++ [d]) rest

/-- `new Set(workoutHistory.map(w => startOfDay(parseISO(w.date)).toISOString().split('T')[0]))`:
deduplicate the calendar-day numbers, keeping first occurrences. -/
def jsDedup (l : List Int) : List Int := jsDedupAux [] l

/-- The deduplicated, ascending-sorted list of completion days of a history
(`Array.from(workoutDays).sort()` in `calculateLongestStreak`). -/
def distinctSortedDays (h : List WorkoutEntry) : List Int :=
  (jsDedup (h.map (·.date))).insertionSort (· ≤ ·)

/-- The scan of `calculateLongestStreak` (streakUtils.ts lines 67-83):
`currentStreak` resets to 1 on a gap, increments on a consecutive day, and
`longestStreak` keeps the running maximum. -/
def longestScan : List Int → Int → Nat → Nat → Nat
  | [], _, _, longestStreak => longestStreak
  | d :: rest, prev, currentStreak, longestStreak =>
    let c := if d - prev = 1 then currentStreak + 1 else 1
    longestScan rest d c (if longestStreak < c then c else longestStreak)

/-- `calculateLongestStreak` from `src/lib/streakUtils.ts` lines 50-86. -/
def calculateLongestStreak (workoutHistory : List WorkoutEntry) : Nat :=
  if workoutHistory.isEmpty then 0
  else
    match distinctSortedDays workoutHistory with
    | [] => 1
    | d :: rest => longestScan rest d 1 1

/-- `days.some((dayIndex, i) => i > 0 && Math.abs(dayIndex - dayIndices[i-1]) === 1)`:
does some adjacent pair of the list differ by exactly 1 in absolute value? -/
def hasConsecutivePairs : List Int → Bool
  | [] => false
  | [_] => false
  | a :: b :: rest => (b - a).natAbs == 1 || hasConsecutivePairs (b :: rest)

/-- A history whose entries carry the given dates and no exercises. -/
def mkHistory (dates : List Int) : List WorkoutEntry :=
  dates.map (⟨·, []⟩)

/-- The consecutive calendar days a, a+1, ..., a+n-1. -/
def consecRun (a : Int) (n : Nat) : List Int :=
  (List.range n).map (fun i : Nat => a + (i : Int))

instance : IsAntisymm Int (fun x y => y ≤ x) :=
  ⟨fun _ _ h₁ h₂ => le_antisymm h₂ h₁⟩

namespace Schedule

/-- The `days` array of `src/app/(tabs)/schedule.tsx` (ids only): Monday first. -/
def days : List String :=
  ["monday", "tuesday", "wednesday", "thursday", "friday", "saturday", "sunday"]

/-- `days.findIndex(day => day.id === d)`: 0-based position, -1 if absent. -/
def dayIndex (d : String) : Int :=
  match days.findIdx? (· == d) with
  | some i => (i : Int)
  | none => -1

/-- The `{ isValid, message? }` result of `validateDayToggle`. -/
structure ValidationResult where
  isValid : Bool
  message : Option String
deriving DecidableEq, Repr

/-- `validateDayToggle` from `src/app/(tabs)/schedule.tsx` lines 477-514:
removal is always valid; an addition is checked first against the 4-day cap,
then against adjacency of the sorted weekday indices. -/
def validateDayToggle (selectedDays : List String) (dayId : String)
    (isAdding : Bool) : ValidationResult :=
  if isAdding = false then ⟨true, none⟩
  else if 4 < (selectedDays ++ [dayId]).length then
    ⟨false, some "Maximum of 4 workout days allowed"⟩
  else if hasConsecutivePairs
      (((selectedDays ++ [dayId]).map dayIndex).insertionSort (· ≤ ·)) then
    ⟨false, some "Rest day required between workouts"⟩
  else
    ⟨true, none⟩

end Schedule

namespace Onboarding

/-- The `days` array of `src/app/onboarding.tsx` (ids only): Sunday first. -/
def days : List String :=
  ["sunday", "monday", "tuesday", "wednesday", "thursday", "friday", "saturday"]

/-- `days.findIndex(day => day.id === d)` for the onboarding ordering. -/
def dayIndex (d : String) : Int :=
  match days.findIdx? (· == d) with
  | some i => (i : Int)
  | none => -1

/-- `toggleDay` from `src/app/onboarding.tsx` lines 28-52: build the toggled
selection, map it to day indices in selection order (without sorting), and
keep the old selection if some adjacent pair of that unsorted index list
differs by exactly 1. -/
def toggleDay (current : List String) (dayId : String) : List String :=
  let newSelection :=
    if dayId ∈ current then current.filter (· != dayId) else current ++ [dayId]
  let dayIndices := newSelection.map dayIndex
  if hasConsecutivePairs dayIndices then current else newSelection

end Onboarding

/-- A JSON value, as far as the update-stats handler's bodies need. -/
inductive Json where
  | str (s : String)
  | num (n : Int)
  | bool (b : Bool)
  | obj (fields : List (String × Json))

/-- `calculateAverageWorkoutDuration` from
`src/supabase/functions/update-stats/index.ts` lines 95-110:
`Math.round((totalExercises / totalWorkouts) * 5)`. -/
def calculateAverageWorkoutDuration (workoutHistory : List WorkoutEntry) : Int :=
  if workoutHistory.isEmpty then 0
  else
    let totalWorkouts : ℚ := workoutHistory.length
    let totalExercises : ℚ := ((workoutHistory.map (·.exercises.length)).sum : ℕ)
    round ((totalExercises / totalWorkouts) * 5)

/-- The key order of the success body of the update-stats handler. -/
def statsKeys : List String :=
  ["total_workouts", "current_streak", "longest_streak", "average_workout_duration"]

/-- The update-stats request handler of
`src/supabase/functions/update-stats/index.ts` (lines 129-142 and 203-220),
restricted to its computational content: the parsed `user_id` of the request
body (`none` when the key is absent) and the user's workout history stand in
for the JSON parse and the database query; the result is the HTTP status and
the response body.  A missing or empty `user_id` is falsy in
`if (!user_id)` and yields the 400 error body. -/
def updateStatsHandler (today : Int) (user_id : Option String)
    (history : List WorkoutEntry) : Nat × Json :=
  if user_id = none ∨ user_id = some "" then
    (400, .obj [("error", .str "User ID is required")])
  else
    let totalWorkouts := history.length
    let currentStreak := calculateStreak today history
    let longestStreak := calculateLongestStreak history
    let averageWorkoutDuration := calculateAverageWorkoutDuration history
    (200, .obj
      [("success", .bool true),
       ("stats", .obj
         [("total_workouts", .num totalWorkouts),
          ("current_streak", .num currentStreak),
          ("longest_streak", .num longestStreak),
          ("average_workout_duration", .num averageWorkoutDuration)])])

/-- The top-level member names of a JSON object. -/
def topLevelKeys : Json → List String
  | .obj fields => fields.map (·.1)
  | _ => []

/-- The member names of the `stats` member of a JSON object. -/
def statsMemberKeys (j : Json) : List String :=
  match j with
  | .obj fields =>
    match fields.lookup "stats" with
    | some s => topLevelKeys s
    | none => []
  | _ => []







/-- C1: the claim says that for a history whose distinct completion days form a
consecutive run of length k ending exactly yesterday, `calculateStreak` returns
k.  The code instead returns 0 for every such history: `currentDate` starts at
today and is only moved to yesterday when the first sorted entry is dated
today, so the loop's first iteration finds no entry equal to `currentDate` and
breaks immediately.  Evaluations at runs of length 1, 2, 3 ending yesterday
(today = 10): all produce 0 where the claim demands 1, 2, 3. -/
theorem calculateStreak_run_ending_yesterday_returns_zero :
    calculateStreak 10 (mkHistory [9]) = 0 ∧
    calculateStreak 10 (mkHistory [9, 8]) = 0 ∧
    calculateStreak 10 (mkHistory [9, 8, 7]) = 0 := by decide

/-- C5: `calculateStreak` returns 0 on the empty history, and returns 0 on
every non-empty history all of whose completion dates (hence in particular the
most recent one) lie more than 1 calendar day before today. -/
theorem calculateStreak_zero_on_empty_or_stale :
    (∀ today : Int, calculateStreak today [] = 0) ∧
    (∀ (today : Int) (h : List WorkoutEntry), h ≠ [] →
      (∀ e ∈ h, 1 < today - e.date) → calculateStreak today h = 0) := by
  constructor
  · intro _; rfl
  · intro today h hne hall
    match h, hne with
    | e :: tl, _ =>
      unfold calculateStreak
      cases hs : sortedByDateDesc (e :: tl) with
      | nil => simp [hs]
      | cons first rest =>
        have hmem : first ∈ e :: tl := by
          have h1 : first ∈ sortedByDateDesc (e :: tl) := by
            rw [hs]; exact List.mem_cons_self _ _
          simpa [sortedByDateDesc] using h1
        have hfirst : 1 < today - first.date := hall first hmem
        simp only [List.isEmpty_cons, Bool.false_eq_true, if_false, hs]
        rw [if_pos hfirst]

/-- C5 witness: a single completion 5 days before today (today = 10) gives
streak 0. -/
theorem calculateStreak_zero_on_stale_witness :
    calculateStreak 10 (mkHistory [5]) = 0 :=
  calculateStreak_zero_on_empty_or_stale.2 10 (mkHistory [5]) (by decide) (by decide)

/-- C6: for completions on exactly today, yesterday and the day before,
`calculateStreak` returns 3; for completions on exactly today and 3 days ago,
it returns 1 — for every value of today. -/
theorem calculateStreak_three_days_and_gap (t : Int) :
    calculateStreak t (mkHistory [t, t - 1, t - 2]) = 3 ∧
    calculateStreak t (mkHistory [t, t - 3]) = 1 := by
  have hs1 : sortedByDateDesc [⟨t, []⟩, ⟨t - 1, []⟩, ⟨t - 2, []⟩] =
      [⟨t, []⟩, ⟨t - 1, []⟩, ⟨t - 2, []⟩] := by
    apply List.Sorted.insertionSort_eq
    simp [List.sorted_cons, dateDesc]
    omega
  have hs2 : sortedByDateDesc [⟨t, []⟩, ⟨t - 3, []⟩] = [⟨t, []⟩, ⟨t - 3, []⟩] := by
    apply List.Sorted.insertionSort_eq
    simp [List.sorted_cons, dateDesc]
  constructor
  · simp only [mkHistory, List.map, calculateStreak, hs1, List.isEmpty_cons,
      Bool.false_eq_true, if_false, streakLoop]
    split_ifs <;> simp_all <;> omega
  · simp only [mkHistory, List.map, calculateStreak, hs2, List.isEmpty_cons,
      Bool.false_eq_true, if_false, streakLoop]
    split_ifs <;> simp_all <;> omega

/-- C7 counterexample: the claim says adding Sunday to a selection containing
only Saturday is valid in the schedule validator; but the `days` array of
`schedule.tsx` is Monday-first, so Saturday and Sunday have indices 5 and 6 —
distance exactly 1 — and the addition is rejected. -/
theorem validateDayToggle_saturday_sunday_rejected :
    Schedule.validateDayToggle ["saturday"] "sunday" true =
      ⟨false, some "Rest day required between workouts"⟩ := by decide

/-- C7 amended: the adjacency check is indeed non-circular (only index
distance exactly 1 is rejected), but over each file's own ordering.  In the
schedule validator (Monday-first) the non-adjacent extreme pair is
Monday/Sunday (distance 6): adding Sunday to a selection containing only
Monday is valid and symmetrically.  In the onboarding toggle (Sunday-first)
Sunday/Saturday have distance 6 and adding Sunday to a selection containing
only Saturday is accepted. -/
theorem adjacency_check_noncircular :
    Schedule.validateDayToggle ["monday"] "sunday" true = ⟨true, none⟩ ∧
    Schedule.validateDayToggle ["sunday"] "monday" true = ⟨true, none⟩ ∧
    Schedule.dayIndex "sunday" - Schedule.dayIndex "monday" = 6 ∧
    Onboarding.toggleDay ["saturday"] "sunday" = ["saturday", "sunday"] ∧
    Onboarding.dayIndex "saturday" - Onboarding.dayIndex "sunday" = 6 := by decide

/-- C8: `calculateStreak`, `calculateLongestStreak` and `validateDayToggle`
are deterministic — two calls with identical input (including the same value
of today) give identical output.  In this embedding the three functions are
pure, so this holds definitionally. -/
theorem streak_and_validator_deterministic :
    ∀ (today : Int) (h : List WorkoutEntry) (sel : List String) (d : String)
      (adding : Bool),
      calculateStreak today h = calculateStreak today h ∧
      calculateLongestStreak h = calculateLongestStreak h ∧
      Schedule.validateDayToggle sel d adding =
        Schedule.validateDayToggle sel d adding :=
  fun _ _ _ _ _ => ⟨rfl, rfl, rfl⟩

/-- C9: the claim says every selection reachable from the onboarding default
{monday, wednesday, friday} by `toggleDay` has no two adjacent weekday indices
and hence at most 4 days.  The onboarding toggle checks adjacency on the
UNSORTED index list, so toggling Sunday from the default is accepted (Sunday
is list-adjacent only to Friday) even though Sunday and Monday have
Sunday-first indices 0 and 1; a further toggle of Thursday is also accepted
and yields a reachable 5-day selection. -/
theorem onboarding_toggle_breaks_adjacency_invariant :
    Onboarding.toggleDay ["monday", "wednesday", "friday"] "sunday" =
      ["monday", "wednesday", "friday", "sunday"] ∧
    Onboarding.dayIndex "monday" - Onboarding.dayIndex "sunday" = 1 ∧
    Onboarding.toggleDay ["monday", "wednesday", "friday", "sunday"] "thursday" =
      ["monday", "wednesday", "friday", "sunday", "thursday"] ∧
    (Onboarding.toggleDay ["monday", "wednesday", "friday", "sunday"]
      "thursday").length = 5 := by decide

/-- C4 counterexample: the success body of the update-stats handler does not
have the four stat fields at top level — its top-level members are `success`
and `stats`. -/
theorem updateStats_success_body_not_flat :
    topLevelKeys (updateStatsHandler 0 (some "user-1") []).2 = ["success", "stats"] ∧
    topLevelKeys (updateStatsHandler 0 (some "user-1") []).2 ≠ statsKeys := by decide

/-- C4 amended: the handler consumes a request body `{ user_id: string }` and,
on success, returns status 200 with a JSON body whose top-level members are
exactly `success` and `stats`, where `stats` has exactly the members
`total_workouts`, `current_streak`, `longest_streak`,
`average_workout_duration` in that order. -/
theorem updateStats_success_body_shape (today : Int) (uid : String)
    (huid : uid ≠ "") (history : List WorkoutEntry) :
    (updateStatsHandler today (some uid) history).1 = 200 ∧
    topLevelKeys (updateStatsHandler today (some uid) history).2 =
      ["success", "stats"] ∧
    statsMemberKeys (updateStatsHandler today (some uid) history).2 = statsKeys := by
  have hc : ¬(some uid = none ∨ some uid = some "") := by simp [huid]
  unfold updateStatsHandler
  rw [if_neg hc]
  exact ⟨rfl, rfl, rfl⟩

/-- C4 witness for the amended statement: a concrete user and a one-entry
history. -/
theorem updateStats_success_body_shape_witness :
    (updateStatsHandler 5 (some "u") (mkHistory [5])).1 = 200 ∧
    topLevelKeys (updateStatsHandler 5 (some "u") (mkHistory [5])).2 =
      ["success", "stats"] ∧
    statsMemberKeys (updateStatsHandler 5 (some "u") (mkHistory [5])).2 = statsKeys :=
  updateStats_success_body_shape 5 "u" (by decide) (mkHistory [5])

/-- If some adjacent pair of a list differs by exactly 1, the list holds two
values at distance exactly 1. -/
theorem exists_adjacent_of_hasConsecutivePairs :
    ∀ l : List Int, hasConsecutivePairs l = true → ∃ x ∈ l, x + 1 ∈ l
  | [], h => by simp [hasConsecutivePairs] at h
  | [_], h => by simp [hasConsecutivePairs] at h
  | a :: b :: rest, h => by
    rw [hasConsecutivePairs, Bool.or_eq_true] at h
    rcases h with h1 | h2
    · have hab : (b - a).natAbs = 1 := by simpa using h1
      by_cases hb : b = a + 1
      · exact ⟨a, List.mem_cons_self _ _, by
          rw [← hb]; exact List.mem_cons_of_mem _ (List.mem_cons_self _ _)⟩
      · have ha : a = b + 1 := by omega
        exact ⟨b, List.mem_cons_of_mem _ (List.mem_cons_self _ _), by
          rw [← ha]; exact List.mem_cons_self _ _⟩
    · obtain ⟨x, hx, hx1⟩ := exists_adjacent_of_hasConsecutivePairs (b :: rest) h2
      exact ⟨x, List.mem_cons_of_mem _ hx, List.mem_cons_of_mem _ hx1⟩

/-- In an ascending-sorted integer list holding two values at distance exactly
1, some adjacent pair differs by exactly 1. -/
theorem hasConsecutivePairs_of_mem_of_sorted :
    ∀ l : List Int, l.Sorted (· ≤ ·) →
      ∀ x : Int, x ∈ l → x + 1 ∈ l → hasConsecutivePairs l = true
  | [], _, x, hx, _ => absurd hx (List.not_mem_nil x)
  | [a], _, x, hx, hx1 => by
    simp only [List.mem_singleton] at hx hx1
    omega
  | a :: b :: rest, hs, x, hx, hx1 => by
    rcases List.sorted_cons.mp hs with ⟨ha, hs'⟩
    have hkey : (b - a).natAbs = 1 ∨ ∃ y ∈ b :: rest, y + 1 ∈ b :: rest := by
      rcases List.mem_cons.mp hx with hxa | hx'
      · rcases List.mem_cons.mp hx1 with h1a | h1'
        · exfalso; omega
        · rcases List.mem_cons.mp h1' with h1b | h1r
          · left; omega
          · have hb_le : b ≤ x + 1 := (List.sorted_cons.mp hs').1 _ h1r
            have hab2 : a ≤ b := ha b (List.mem_cons_self _ _)
            by_cases hba : b = a + 1
            · left; omega
            · refine Or.inr ⟨x, ?_, h1'⟩
              have hbeq : b = a := by omega
              rw [hxa, ← hbeq]
              exact List.mem_cons_self _ _
      · have hax : a ≤ x := ha x hx'
        have h1' : x + 1 ∈ b :: rest := by
          rcases List.mem_cons.mp hx1 with h1a | h1r
          · exfalso; omega
          · exact h1r
        exact Or.inr ⟨x, hx', h1'⟩
    rw [hasConsecutivePairs, Bool.or_eq_true]
    rcases hkey with h | ⟨y, hy, hy1⟩
    · left; simpa using h
    · right; exact hasConsecutivePairs_of_mem_of_sorted (b :: rest) hs' y hy hy1

/-- C2: the schedule validator accepts every removal; an addition is rejected
with the maximum-days message when the resulting selection would exceed 4
days, otherwise rejected with the rest-day message when the resulting
selection holds two weekdays whose indices are at distance exactly 1, and
accepted otherwise (in particular adding Wednesday to {Monday, Friday} is
accepted). -/
theorem validateDayToggle_spec (sel : List String) (d : String) :
    (Schedule.validateDayToggle sel d false = ⟨true, none⟩) ∧
    (4 < (sel ++ [d]).length →
      Schedule.validateDayToggle sel d true =
        ⟨false, some "Maximum of 4 workout days allowed"⟩) ∧
    ((sel ++ [d]).length ≤ 4 →
      (∃ x ∈ (sel ++ [d]).map Schedule.dayIndex,
        x + 1 ∈ (sel ++ [d]).map Schedule.dayIndex) →
      Schedule.validateDayToggle sel d true =
        ⟨false, some "Rest day required between workouts"⟩) ∧
    ((sel ++ [d]).length ≤ 4 →
      ¬(∃ x ∈ (sel ++ [d]).map Schedule.dayIndex,
        x + 1 ∈ (sel ++ [d]).map Schedule.dayIndex) →
      Schedule.validateDayToggle sel d true = ⟨true, none⟩) := by
  refine ⟨by simp [Schedule.validateDayToggle], ?_, ?_, ?_⟩
  · intro hlen
    unfold Schedule.validateDayToggle
    rw [if_neg (by simp), if_pos hlen]
  · intro hlen hex
    obtain ⟨x, hx, hx1⟩ := hex
    unfold Schedule.validateDayToggle
    rw [if_neg (by simp), if_neg (by omega), if_pos ?_]
    exact hasConsecutivePairs_of_mem_of_sorted _
      (List.sorted_insertionSort _ _) x
      ((List.mem_insertionSort _).mpr hx)
      ((List.mem_insertionSort _).mpr hx1)
  · intro hlen hnex
    unfold Schedule.validateDayToggle
    rw [if_neg (by simp), if_neg (by omega), if_neg ?_]
    intro hc
    obtain ⟨x, hx, hx1⟩ := exists_adjacent_of_hasConsecutivePairs _ hc
    exact hnex ⟨x, (List.mem_insertionSort _).mp hx,
      (List.mem_insertionSort _).mp hx1⟩

/-- C2 witness: a 5th day on a 4-day selection is rejected with the
maximum-days message, Tuesday next to Monday is rejected with the rest-day
message, Wednesday into {Monday, Friday} is accepted, and removal is always
accepted. -/
theorem validateDayToggle_spec_witness :
    Schedule.validateDayToggle ["monday", "wednesday", "friday", "sunday"]
      "tuesday" true = ⟨false, some "Maximum of 4 workout days allowed"⟩ ∧
    Schedule.validateDayToggle ["monday"] "tuesday" true =
      ⟨false, some "Rest day required between workouts"⟩ ∧
    Schedule.validateDayToggle ["monday", "friday"] "wednesday" true =
      ⟨true, none⟩ ∧
    Schedule.validateDayToggle ["monday", "friday"] "wednesday" false =
      ⟨true, none⟩ :=
  ⟨(validateDayToggle_spec _ _).2.1 (by decide),
   (validateDayToggle_spec _ _).2.2.1 (by decide) ⟨0, by decide, by decide⟩,
   (validateDayToggle_spec _ _).2.2.2 (by decide) (by decide),
   (validateDayToggle_spec _ _).1⟩

theorem consecRun_succ (a : Int) (n : Nat) :
    consecRun a (n + 1) = a :: consecRun (a + 1) n := by
  unfold consecRun
  rw [List.range_succ_eq_map]
  simp only [List.map_cons, List.map_map, Nat.cast_zero, add_zero, List.cons.injEq,
    true_and]
  apply List.map_congr_left
  intro i _
  simp only [Function.comp_apply, Nat.cast_succ]
  ring

/-- The running maximum of `longestScan` never decreases. -/
theorem le_longestScan :
    ∀ (l : List Int) (prev : Int) (cur lng : Nat), lng ≤ longestScan l prev cur lng
  | [], _, _, _ => le_refl _
  | d :: rest, prev, cur, lng => by
    simp only [longestScan]
    refine le_trans ?_ (le_longestScan rest d _ _)
    split_ifs <;> omega

/-- Scanning past a gap resets the current run to 1. -/
theorem longestScan_gap (d : Int) (rest : List Int) (prev : Int) (cur lng : Nat)
    (h : d - prev ≠ 1) :
    longestScan (d :: rest) prev cur lng =
      longestScan rest d 1 (if lng < 1 then 1 else lng) := by
  simp [longestScan, h]

/-- Scanning a block of n consecutive days starting right after `prev` adds n
to the current run and folds it into the running maximum. -/
theorem longestScan_run (n : Nat) :
    ∀ (prev : Int) (cur lng : Nat) (rest : List Int), cur ≤ lng →
      longestScan (consecRun (prev + 1) n ++ rest) prev cur lng =
        longestScan rest (prev + n) (cur + n)
          (if lng < cur + n then cur + n else lng) := by
  induction n with
  | zero =>
    intro prev cur lng rest h
    have h1 : (if lng < cur then cur else lng) = lng := by split_ifs <;> omega
    simp [consecRun, h1]
  | succ n ih =>
    intro prev cur lng rest h
    rw [consecRun_succ, List.cons_append]
    have hc : prev + 1 - prev = (1 : Int) := by ring
    simp only [longestScan, hc, if_pos]
    rw [ih (prev + 1) (cur + 1) (if lng < cur + 1 then cur + 1 else lng) rest
      (by split_ifs <;> omega)]
    have hacc : (if (if lng < cur + 1 then cur + 1 else lng) < cur + 1 + n
        then cur + 1 + n else if lng < cur + 1 then cur + 1 else lng) =
        (if lng < cur + (n + 1) then cur + (n + 1) else lng) := by
      split_ifs <;> omega
    rw [hacc]
    have hprev : prev + 1 + (n : Int) = prev + ((n : Nat) + 1 : Nat) := by
      push_cast; ring
    rw [hprev]
    have hcur : cur + 1 + n = cur + (n + 1) := by omega
    rw [hcur]

/-- C3: `calculateLongestStreak` returns 0 on the empty history and at least 1
on every non-empty history; and on every history whose distinct completion
days form two separate consecutive runs of lengths 4 and 6 (in either order,
with a gap between them) it returns 6 — there is no dependence on a current
date, which the function does not even receive. -/
theorem calculateLongestStreak_spec :
    (calculateLongestStreak [] = 0) ∧
    (∀ h : List WorkoutEntry, h ≠ [] → 1 ≤ calculateLongestStreak h) ∧
    (∀ (h : List WorkoutEntry) (a b : Int), a + 4 < b →
      distinctSortedDays h = consecRun a 4 ++ consecRun b 6 →
      calculateLongestStreak h = 6) ∧
    (∀ (h : List WorkoutEntry) (a b : Int), a + 6 < b →
      distinctSortedDays h = consecRun a 6 ++ consecRun b 4 →
      calculateLongestStreak h = 6) := by
  refine ⟨rfl, ?_, ?_, ?_⟩
  · intro h hne
    obtain ⟨e, tl, rfl⟩ : ∃ e tl, h = e :: tl := by
      cases h with
      | nil => exact absurd rfl hne
      | cons e tl => exact ⟨e, tl, rfl⟩
    unfold calculateLongestStreak
    simp only [List.isEmpty_cons, Bool.false_eq_true, if_false]
    cases hd : distinctSortedDays (e :: tl) with
    | nil => simp [hd]
    | cons d rest =>
      exact le_longestScan rest d 1 1
  · intro h a b hab hd
    obtain ⟨e, tl, rfl⟩ : ∃ e tl, h = e :: tl := by
      cases h with
      | nil =>
        exfalso
        rw [show distinctSortedDays [] = [] from rfl,
          show consecRun a 4 = a :: consecRun (a + 1) 3 from consecRun_succ a 3,
          List.cons_append] at hd
        exact List.noConfusion hd
      | cons e tl => exact ⟨e, tl, rfl⟩
    unfold calculateLongestStreak
    simp only [List.isEmpty_cons, Bool.false_eq_true, if_false]
    rw [hd, show consecRun a 4 = a :: consecRun (a + 1) 3 from consecRun_succ a 3,
      List.cons_append]
    show longestScan (consecRun (a + 1) 3 ++ consecRun b 6) a 1 1 = 6
    rw [longestScan_run 3 a 1 1 (consecRun b 6) (le_refl 1)]
    norm_num
    rw [show consecRun b 6 = b :: consecRun (b + 1) 5 from consecRun_succ b 5]
    rw [longestScan_gap b _ _ _ _ (by push_cast; omega)]
    norm_num
    rw [← List.append_nil (consecRun (b + 1) 5)]
    rw [longestScan_run 5 b 1 4 [] (by omega)]
    norm_num [longestScan]
  · intro h a b hab hd
    obtain ⟨e, tl, rfl⟩ : ∃ e tl, h = e :: tl := by
      cases h with
      | nil =>
        exfalso
        rw [show distinctSortedDays [] = [] from rfl,
          show consecRun a 6 = a :: consecRun (a + 1) 5 from consecRun_succ a 5,
          List.cons_append] at hd
        exact List.noConfusion hd
      | cons e tl => exact ⟨e, tl, rfl⟩
    unfold calculateLongestStreak
    simp only [List.isEmpty_cons, Bool.false_eq_true, if_false]
    rw [hd, show consecRun a 6 = a :: consecRun (a + 1) 5 from consecRun_succ a 5,
      List.cons_append]
    show longestScan (consecRun (a + 1) 5 ++ consecRun b 4) a 1 1 = 6
    rw [longestScan_run 5 a 1 1 (consecRun b 4) (le_refl 1)]
    norm_num
    rw [show consecRun b 4 = b :: consecRun (b + 1) 3 from consecRun_succ b 3]
    rw [longestScan_gap b _ _ _ _ (by push_cast; omega)]
    norm_num
    rw [← List.append_nil (consecRun (b + 1) 3)]
    rw [longestScan_run 3 b 1 6 [] (by omega)]
    norm_num [longestScan]

/-- C3 witness: a single completion has longest streak at least 1, and a
history of runs 0..3 and 10..15 (lengths 4 and 6) has longest streak 6. -/
theorem calculateLongestStreak_spec_witness :
    1 ≤ calculateLongestStreak (mkHistory [5]) ∧
    calculateLongestStreak (mkHistory [0, 1, 2, 3, 10, 11, 12, 13, 14, 15]) = 6 :=
  ⟨calculateLongestStreak_spec.2.1 _ (by decide),
   calculateLongestStreak_spec.2.2.1 _ 0 10 (by decide) (by decide)⟩

/-- Two permutations of the same history sort to lists with the same dates in
the same positions (entries with equal dates may differ in other fields, but
the date sequence of the descending sort is determined by the multiset of
entries). -/
theorem map_date_sorted_eq (l l' : List WorkoutEntry) (hp : l.Perm l') :
    (sortedByDateDesc l).map (·.date) = (sortedByDateDesc l').map (·.date) := by
  have hperm : ((sortedByDateDesc l).map (·.date)).Perm
      ((sortedByDateDesc l').map (·.date)) :=
    List.Perm.map _ ((List.perm_insertionSort dateDesc l).trans
      (hp.trans (List.perm_insertionSort dateDesc l').symm))
  have hs : ∀ m : List WorkoutEntry, List.Sorted dateDesc m →
      (m.map (·.date)).Sorted (fun x y : Int => y ≤ x) := by
    intro m hm
    exact List.pairwise_map.mpr (hm.imp (fun h => h))
  exact List.eq_of_perm_of_sorted hperm
    (hs _ (List.sorted_insertionSort dateDesc l))
    (hs _ (List.sorted_insertionSort dateDesc l'))

/-- The streak loop reads nothing but the dates of its entries. -/
theorem streakLoop_congr (today : Int) :
    ∀ (l₁ l₂ : List WorkoutEntry), l₁.map (·.date) = l₂.map (·.date) →
      ∀ (cd : Int) (s : Nat) (f : Bool),
        streakLoop today l₁ cd s f = streakLoop today l₂ cd s f
  | [], [], _, _, _, _ => rfl
  | [], _ :: _, h, _, _, _ => by simp at h
  | _ :: _, [], h, _, _, _ => by simp at h
  | e₁ :: r₁, e₂ :: r₂, h, cd, s, f => by
    simp only [List.map_cons, List.cons.injEq] at h
    obtain ⟨hd, ht⟩ := h
    simp only [streakLoop]
    rw [hd]
    split_ifs with h1 h2
    · exact streakLoop_congr today r₁ r₂ ht _ _ _
    · exact streakLoop_congr today r₁ r₂ ht _ _ _
    · rfl

/-- `calculateStreak` is invariant under reordering of the history. -/
theorem calculateStreak_perm (today : Int) (l l' : List WorkoutEntry)
    (hp : l.Perm l') : calculateStreak today l = calculateStreak today l' := by
  have hmap := map_date_sorted_eq l l' hp
  have hemp : l.isEmpty = l'.isEmpty := by
    have hlen := hp.length_eq
    cases l <;> cases l' <;> simp_all
  unfold calculateStreak
  rw [hemp]
  cases hl' : l'.isEmpty with
  | true => simp
  | false =>
    simp only [Bool.false_eq_true, if_false]
    cases hs1 : sortedByDateDesc l with
    | nil =>
      cases hs2 : sortedByDateDesc l' with
      | nil => rfl
      | cons f2 r2 => rw [hs1, hs2] at hmap; simp at hmap
    | cons f1 r1 =>
      cases hs2 : sortedByDateDesc l' with
      | nil => rw [hs1, hs2] at hmap; simp at hmap
      | cons f2 r2 =>
        rw [hs1, hs2] at hmap
        simp only [List.map_cons, List.cons.injEq] at hmap
        obtain ⟨hd, ht⟩ := hmap
        show (if 1 < today - f1.date then 0
            else streakLoop today (f1 :: r1) today 0 true) =
          (if 1 < today - f2.date then 0
            else streakLoop today (f2 :: r2) today 0 true)
        rw [hd]
        by_cases hg : 1 < today - f2.date
        · rw [if_pos hg, if_pos hg]
        · rw [if_neg hg, if_neg hg]
          exact streakLoop_congr today (f1 :: r1) (f2 :: r2)
            (by simp only [List.map_cons]; rw [hd, ht]) _ _ _

/-- Membership in the JS-set accumulator. -/
theorem mem_jsDedupAux :
    ∀ (l acc : List Int) (x : Int), x ∈ jsDedupAux acc l ↔ x ∈ acc ∨ x ∈ l
  | [], acc, x => by simp [jsDedupAux]
  | d :: rest, acc, x => by
    simp only [jsDedupAux]
    rw [mem_jsDedupAux rest _ x]
    split_ifs with hmem
    · constructor
      · rintro (h | h)
        · exact Or.inl h
        · exact Or.inr (List.mem_cons_of_mem _ h)
      · rintro (h | h)
        · exact Or.inl h
        · rcases List.mem_cons.mp h with rfl | h'
          · exact Or.inl hmem
          · exact Or.inr h'
    · simp only [List.mem_append, List.mem_singleton, List.mem_cons]
      tauto

/-- The JS-set accumulator never introduces duplicates. -/
theorem nodup_jsDedupAux :
    ∀ (l acc : List Int), acc.Nodup → (jsDedupAux acc l).Nodup
  | [], _, h => h
  | d :: rest, acc, h => by
    simp only [jsDedupAux]
    apply nodup_jsDedupAux
    split_ifs with hmem
    · exact h
    · exact ((List.perm_append_singleton d acc).symm).nodup
        (List.nodup_cons.mpr ⟨hmem, h⟩)

/-- The deduplicated sorted day list is invariant under reordering of the
history. -/
theorem distinctSortedDays_perm_eq (l l' : List WorkoutEntry) (hp : l.Perm l') :
    distinctSortedDays l = distinctSortedDays l' := by
  have hdp : (jsDedup (l.map (·.date))).Perm (jsDedup (l'.map (·.date))) := by
    refine (List.perm_ext_iff_of_nodup ?_ ?_).mpr ?_
    · exact nodup_jsDedupAux _ _ List.nodup_nil
    · exact nodup_jsDedupAux _ _ List.nodup_nil
    · intro a
      unfold jsDedup
      rw [mem_jsDedupAux, mem_jsDedupAux]
      simp only [List.not_mem_nil, false_or]
      exact (hp.map _).mem_iff
  unfold distinctSortedDays
  exact List.eq_of_perm_of_sorted
    ((List.perm_insertionSort _ _).trans (hdp.trans (List.perm_insertionSort _ _).symm))
    (List.sorted_insertionSort _ _) (List.sorted_insertionSort _ _)

/-- `calculateLongestStreak` is invariant under reordering of the history. -/
theorem calculateLongestStreak_perm (l l' : List WorkoutEntry) (hp : l.Perm l') :
    calculateLongestStreak l = calculateLongestStreak l' := by
  have hemp : l.isEmpty = l'.isEmpty := by
    have hlen := hp.length_eq
    cases l <;> cases l' <;> simp_all
  unfold calculateLongestStreak
  rw [hemp, distinctSortedDays_perm_eq l l' hp]

/-- C10: both streak functions depend only on the multiset of entries — for
every history and every reordering of it they return the same results, since
each sorts (or deduplicates and sorts) by date before scanning and reads no
field other than the date. -/
theorem streak_functions_order_independent (today : Int)
    (l l' : List WorkoutEntry) (hp : l.Perm l') :
    calculateStreak today l = calculateStreak today l' ∧
    calculateLongestStreak l = calculateLongestStreak l' :=
  ⟨calculateStreak_perm today l l' hp, calculateLongestStreak_perm l l' hp⟩

/-- C10 witness: a two-entry history (with a non-trivial exercises field) and
its reversal. -/
theorem streak_functions_order_independent_witness :
    calculateStreak 8 [⟨7, [("squat", true)]⟩, ⟨8, []⟩] =
      calculateStreak 8 [⟨8, []⟩, ⟨7, [("squat", true)]⟩] ∧
    calculateLongestStreak [⟨7, [("squat", true)]⟩, ⟨8, []⟩] =
      calculateLongestStreak [⟨8, []⟩, ⟨7, [("squat", true)]⟩] :=
  streak_functions_order_independent 8 _ _ (by decide)
